import Mathlib

/-!
Verification development for the flat-ai structured-extraction engine.
The repository ships the engine as a library exercised by a tutorial
notebook; the engine itself (public operations set_context, add_context,
clear_context, is_true, classify, generate_object, call_function,
pick_a_function, get_string) is embedded below following the design
specification of the engine.
-/

namespace FlatSpec

/-- Modelled from the spec: the arbitrary structured values carried in the
Context Store and produced by the Response Decoder (JSON-like data); the
flat_ai library itself is not part of the checked sources. -/
inductive Json where
  | null
  | str (s : String)
  | num (n : Int)
  | bool (b : Bool)
  | arr (xs : List Json)
  | obj (fields : List (String × Json))

/-- First-match lookup of a key in an association list of object fields. -/
def jLookup (fields : List (String × Json)) (k : String) : Option Json :=
  match fields with
  | [] => none
  | (k2, v) :: rest => if k2 = k then some v else jLookup rest k

/-- Boolean membership of a name in a list of names. -/
def nameIn (a : String) : List String → Bool
  | [] => false
  | x :: xs => if x = a then true else nameIn a xs

/-- Whether a list of names contains a duplicate. -/
def hasDupNames : List String → Bool
  | [] => false
  | x :: xs => nameIn x xs || hasDupNames xs

/-- Modelled from the spec: declared field and parameter types of a Target
Shape, including nested lists; an unsupported nested type is represented
explicitly so schema compilation can fail fast on it. -/
inductive FieldType where
  | string
  | integer
  | boolean
  | date
  | listOf (elem : FieldType)
  | unsupported (tag : String)

/-- Modelled from the spec: one declared field of a Record shape. -/
structure Field where
  name : String
  type : FieldType
  description : Option String

/-- Modelled from the spec: one declared parameter of a function signature. -/
structure Param where
  name : String
  type : FieldType
  required : Bool

/-- Modelled from the spec: an introspected callable signature. -/
structure FuncSig where
  name : String
  params : List Param
  doc : Option String

/-- Modelled from the spec: the Target Shape of a generation call. -/
inductive Shape where
  | boolean
  | closedChoice (options : List (String × String))
  | record (fields : List Field)
  | listOfRecord (fields : List Field)
  | freeText
  | functionSig (sig : FuncSig)

/-- Whether a JSON value inhabits a declared field type. -/
def valueHasType : FieldType → Json → Bool
  | .string, .str _ => true
  | .integer, .num _ => true
  | .boolean, .bool _ => true
  | .date, .str _ => true
  | .listOf t, .arr xs => xs.all (valueHasType t)
  | _, _ => false

/-- Coerce every element of a list, failing if any element fails. -/
def coerceAll (f : Json → Option Json) : List Json → Option (List Json)
  | [] => some []
  | x :: xs =>
    match f x, coerceAll f xs with
    | some w, some ws => some (w :: ws)
    | _, _ => none

/-- Modelled from the spec: best-effort type coercion applied by the
Response Decoder (for example numeric strings to numbers), rejecting
structurally wrong values. -/
def coerceTo : FieldType → Json → Option Json
  | .string, v =>
    match v with
    | .str s => some (.str s)
    | .num n => some (.str (toString n))
    | _ => none
  | .integer, v =>
    match v with
    | .num n => some (.num n)
    | .str s => (s.toInt?).map Json.num
    | _ => none
  | .boolean, v =>
    match v with
    | .bool b => some (.bool b)
    | .str s =>
      if s = "true" then some (.bool true)
      else if s = "false" then some (.bool false)
      else none
    | _ => none
  | .date, v =>
    match v with
    | .str s => some (.str s)
    | _ => none
  | .listOf t, v =>
    match v with
    | .arr xs => (coerceAll (coerceTo t) xs).map Json.arr
    | _ => none
  | .unsupported _, _ => none

/-- Modelled from the spec: raw Transport output together with the outcome
of the heuristic structured-fragment extraction stage (the extraction
heuristics themselves are an isolated collaborator). -/
structure ModelOutput where
  raw : String
  parsed : Option Json

/-- Decode the declared fields of a record out of a parsed JSON object. -/
def decodeFieldsAux (o : List (String × Json)) : List Field → Except String (List (String × Json))
  | [] => .ok []
  | f :: rest =>
    match jLookup o f.name with
    | none => .error ("missing required field: " ++ f.name)
    | some v =>
      match coerceTo f.type v with
      | none => .error ("field " ++ f.name ++ " does not match the declared type")
      | some w =>
        match decodeFieldsAux o rest with
        | .error e => .error e
        | .ok kvs => .ok ((f.name, w) :: kvs)

/-- Decode every item of a JSON array as a record with the given fields. -/
def decodeRecordItems (fs : List Field) : List Json → Except String (List (List (String × Json)))
  | [] => .ok []
  | j :: rest =>
    match j with
    | .obj o =>
      match decodeFieldsAux o fs with
      | .error e => .error e
      | .ok kvs =>
        match decodeRecordItems fs rest with
        | .error e => .error e
        | .ok items => .ok (kvs :: items)
    | _ => .error "every item of the list must be a JSON object"

/-- Decode the declared parameters of a callable out of a parsed JSON
object; optional parameters may be absent, required ones may not. -/
def decodeParamsAux (o : List (String × Json)) : List Param → Except String (List (String × Json))
  | [] => .ok []
  | p :: rest =>
    match jLookup o p.name with
    | none =>
      if p.required then .error ("missing required parameter: " ++ p.name)
      else decodeParamsAux o rest
    | some v =>
      match coerceTo p.type v with
      | none => .error ("parameter " ++ p.name ++ " does not match the declared type")
      | some w =>
        match decodeParamsAux o rest with
        | .error e => .error e
        | .ok kvs => .ok ((p.name, w) :: kvs)

/-- Modelled from the spec: the typed Decoded Result of a call. -/
inductive Decoded where
  | bool (b : Bool)
  | choice (key : String)
  | record (kvs : List (String × Json))
  | list (items : List (List (String × Json)))
  | text (s : String)
  | funcArgs (kvs : List (String × Json))

/-- Modelled from the spec: the Response Decoder/Validator, which parses
raw model text against a Target Shape, coerces field values and rejects
structurally wrong output with a validation error message. -/
def decode : Shape → ModelOutput → Except String Decoded
  | .freeText, out => .ok (.text out.raw)
  | .boolean, out =>
    match out.parsed with
    | some j =>
      match coerceTo .boolean j with
      | some (.bool b) => .ok (.bool b)
      | _ => .error "the answer must be exactly true or false"
    | none => .error "no structured data found in the model output"
  | .closedChoice opts, out =>
    match out.parsed with
    | some (.str k) =>
      if nameIn k (opts.map Prod.fst) then .ok (.choice k)
      else .error ("the key is not one of the allowed options: " ++ k)
    | _ => .error "the answer must be a single string key"
  | .record fs, out =>
    match out.parsed with
    | some (.obj o) =>
      match decodeFieldsAux o fs with
      | .ok kvs => .ok (.record kvs)
      | .error e => .error e
    | _ => .error "expected a single JSON object"
  | .listOfRecord fs, out =>
    match out.parsed with
    | some (.arr xs) =>
      match decodeRecordItems fs xs with
      | .ok items => .ok (.list items)
      | .error e => .error e
    | _ => .error "expected a JSON array of objects"
  | .functionSig sig, out =>
    match out.parsed with
    | some (.obj o) =>
      match decodeParamsAux o sig.params with
      | .ok kvs => .ok (.funcArgs kvs)
      | .error e => .error e
    | _ => .error "expected a single JSON object of arguments"

/-- Whether a declared record field is present in decoded key-value pairs
with a value of its declared type. -/
def fieldSatisfied (kvs : List (String × Json)) (f : Field) : Bool :=
  match jLookup kvs f.name with
  | some v => valueHasType f.type v
  | none => false

/-- Whether decoded key-value pairs satisfy every declared record field. -/
def recordSatisfies (fs : List Field) (kvs : List (String × Json)) : Bool :=
  fs.all (fieldSatisfied kvs)

/-- Whether a declared parameter is correctly bound in decoded arguments:
present with its declared type, or absent and optional. -/
def paramSatisfied (kvs : List (String × Json)) (p : Param) : Bool :=
  match jLookup kvs p.name with
  | some v => valueHasType p.type v
  | none => !p.required

/-- Whether every decoded argument key is a declared parameter name. -/
def argsDeclared (ps : List Param) (kvs : List (String × Json)) : Bool :=
  kvs.all (fun kv => nameIn kv.1 (ps.map Param.name))

/-- The structural constraints a Decoded Result must satisfy for a Target
Shape, stated independently of the decoder: every required field present
with a value of its declared type, a choice key a member of the allowed
set, every list item individually valid. -/
def satisfiesShape : Shape → Decoded → Bool
  | .boolean, .bool _ => true
  | .closedChoice opts, .choice k => nameIn k (opts.map Prod.fst)
  | .record fs, .record kvs => recordSatisfies fs kvs
  | .listOfRecord fs, .list items => items.all (recordSatisfies fs)
  | .freeText, .text _ => true
  | .functionSig sig, .funcArgs kvs =>
    sig.params.all (paramSatisfied kvs) && argsDeclared sig.params kvs
  | _, _ => false

/-- Modelled from the spec: field and parameter names are unique within
one well-formed Target Shape (data-model invariant). -/
def wellFormedShape : Shape → Bool
  | .record fs => !hasDupNames (fs.map Field.name)
  | .listOfRecord fs => !hasDupNames (fs.map Field.name)
  | .functionSig sig => !hasDupNames (sig.params.map Param.name)
  | _ => true

/-- Textual name of a declared type, failing on unsupported nested types. -/
def typeText : FieldType → Except String String
  | .string => .ok "string"
  | .integer => .ok "integer"
  | .boolean => .ok "boolean"
  | .date => .ok "date"
  | .listOf t =>
    match typeText t with
    | .ok s => .ok ("list of " ++ s)
    | .error e => .error e
  | .unsupported tag => .error ("unsupported type in schema: " ++ tag)

/-- One line of a compiled field listing; a field without an explicit
description falls back to its name as the description. -/
def fieldText (f : Field) : Except String String :=
  match typeText f.type with
  | .error e => .error e
  | .ok t => .ok ("- " ++ f.name ++ " (" ++ t ++ "): " ++ f.description.getD f.name)

/-- The full field-by-field listing of a record shape. -/
def fieldsText : List Field → Except String String
  | [] => .ok ""
  | f :: rest =>
    match fieldText f with
    | .error e => .error e
    | .ok s =>
      match fieldsText rest with
      | .error e => .error e
      | .ok ss => .ok (s ++ "\n" ++ ss)

/-- The enumeration of the allowed keys of a closed choice. -/
def optionsText : List (String × String) → String
  | [] => ""
  | (k, d) :: rest => "- " ++ k ++ ": " ++ d ++ "\n" ++ optionsText rest

/-- View of a declared parameter as a record field for compilation. -/
def paramField (p : Param) : Field :=
  ⟨p.name, p.type, some p.name⟩

/-- Modelled from the spec: the Schema Compiler, a function of the Target
Shape alone producing the Compiled Description, failing fast with a schema
error on unsupported nested types or duplicate field names. -/
def compile : Shape → Except String String
  | .boolean => .ok "Answer with exactly true or false."
  | .freeText => .ok "Respond with plain text."
  | .closedChoice opts =>
    .ok ("Answer with exactly one of the following keys verbatim:\n" ++ optionsText opts)
  | .record fs =>
    if hasDupNames (fs.map Field.name) then
      .error "duplicate field names in the target shape"
    else
      match fieldsText fs with
      | .error e => .error e
      | .ok s => .ok ("Respond with a single JSON object with exactly these fields:\n" ++ s)
  | .listOfRecord fs =>
    if hasDupNames (fs.map Field.name) then
      .error "duplicate field names in the target shape"
    else
      match fieldsText fs with
      | .error e => .error e
      | .ok s =>
        .ok ("Respond with a JSON array of objects with exactly these fields; the array may be empty if no items qualify:\n" ++ s)
  | .functionSig sig =>
    if hasDupNames (sig.params.map Param.name) then
      .error "duplicate parameter names in the function signature"
    else
      match fieldsText (sig.params.map paramField) with
      | .error e => .error e
      | .ok s =>
        .ok ("Function " ++ sig.name ++ ": " ++ sig.doc.getD sig.name ++ "\nParameters:\n" ++ s)

/-- A context: named JSON values, later entries shadowed by earlier ones. -/
abbrev Ctx := List (String × Json)

/-- First-defined alternative of two optional values. -/
def orElseOpt (a b : Option Json) : Option Json :=
  match a with
  | some v => some v
  | none => b

/-- Modelled from the spec: the effective context of one call is the
stored context with the call-local bindings merged on top, the call-local
entries overriding same-named stored entries. -/
def mergeContext (store locals : Ctx) : Ctx :=
  locals ++ store

/-- Fixed system preamble of every Conversation Draft. -/
def systemPreamble : String :=
  "You are a precise assistant. Follow the output format exactly."

/-- Modelled from the spec: the Conversation Draft, the ordered message
segments of one request attempt, including error feedback on retries. -/
structure Draft where
  preamble : String
  contextBlock : Ctx
  instruction : String
  description : String
  feedback : List (String × String)

/-- Modelled from the spec: the Prompt Composer building a fresh draft from
the effective context, the instruction and the Compiled Description. -/
def composeDraft (store locals : Ctx) (instr desc : String) : Draft :=
  ⟨systemPreamble, mergeContext store locals, instr, desc, []⟩

/-- Append one round of corrective feedback (prior raw output plus its
validation error) to a draft for the next retry attempt. -/
def appendFeedback (d : Draft) (badRaw err : String) : Draft :=
  ⟨d.preamble, d.contextBlock, d.instruction, d.description, d.feedback ++ [(badRaw, err)]⟩

/-- Modelled from the spec: one Transport round trip either yields raw
model output or fails at the transport level. -/
inductive TransportReply where
  | reply (out : ModelOutput)
  | failure (msg : String)

/-- Modelled from the spec: the error taxonomy of the engine; validation
errors exist internally but are consumed by the Retry Controller. -/
inductive EngineError where
  | schemaError (msg : String)
  | transportError (msg : String)
  | validationError (msg : String)
  | generationFailed

/-- Whether an error belongs to the public taxonomy that may cross the
public boundary (everything except a validation error). -/
def publicError : EngineError → Bool
  | .validationError _ => false
  | _ => true

/-- Modelled from the spec: the Retry Controller. Each attempt invokes
Transport with the current draft; a transport failure propagates at once,
a valid decode terminates successfully, a validation error appends
corrective feedback to the draft and retries, and exhausting the attempt
budget is a terminal generation failure. The second component counts the
Transport invocations performed. -/
def runAttempts {α : Type} (dec : ModelOutput → Except String α)
    (tr : Draft → TransportReply) : Nat → Draft → Except EngineError α × Nat
  | 0, _ => (.error .generationFailed, 0)
  | n + 1, d =>
    match tr d with
    | .failure m => (.error (.transportError m), 1)
    | .reply out =>
      match dec out with
      | .ok a => (.ok a, 1)
      | .error msg =>
        ((runAttempts dec tr n (appendFeedback d out.raw msg)).1,
         (runAttempts dec tr n (appendFeedback d out.raw msg)).2 + 1)

/-- Modelled from the spec: the full pipeline of one call with a Target
Shape: compile the shape (failing fast with a schema error), compose the
draft over the effective context, then run the decode/retry loop. -/
def runPipeline (shape : Shape) (store locals : Ctx) (instr : String)
    (tr : Draft → TransportReply) (n : Nat) : Except EngineError Decoded × Nat :=
  match compile shape with
  | .error m => (.error (.schemaError m), 0)
  | .ok desc => runAttempts (decode shape) tr n (composeDraft store locals instr desc)

/-- Modelled from the spec: the client state, a process-scoped Context
Store plus the configured maximum attempt count of the Retry Controller. -/
structure FlatAI where
  context : Ctx
  maxAttempts : Nat

/-- Modelled from the spec: set_context replaces all stored entries. -/
def set_context (ai : FlatAI) (bindings : Ctx) : FlatAI :=
  ⟨bindings, ai.maxAttempts⟩

/-- Modelled from the spec: add_context merges bindings into the store,
overwriting same-named keys. -/
def add_context (ai : FlatAI) (bindings : Ctx) : FlatAI :=
  ⟨mergeContext ai.context bindings, ai.maxAttempts⟩

/-- Modelled from the spec: clear_context empties the store. -/
def clear_context (ai : FlatAI) : FlatAI :=
  ⟨[], ai.maxAttempts⟩

/-- Extract the boolean of a decoded result. -/
def asBool : Decoded → Except EngineError Bool
  | .bool b => .ok b
  | _ => .error (.validationError "expected a boolean result")

/-- Extract the chosen key of a decoded result. -/
def asChoice : Decoded → Except EngineError String
  | .choice k => .ok k
  | _ => .error (.validationError "expected a choice key")

/-- Extract the plain text of a decoded result. -/
def asText : Decoded → Except EngineError String
  | .text s => .ok s
  | _ => .error (.validationError "expected plain text")

/-- Extract the decoded argument mapping of a decoded result. -/
def asFuncArgs : Decoded → Except EngineError (List (String × Json))
  | .funcArgs kvs => .ok kvs
  | _ => .error (.validationError "expected an arguments object")

/-- Fixed instruction of generate_object. -/
def genObjectInstr : String :=
  "Fill out the following object based on the context."

/-- Fixed instruction of classify. -/
def classifyInstr : String :=
  "Classify the context into exactly one of the given options."

/-- Fixed instruction of call_function. -/
def callFunctionInstr : String :=
  "Provide the arguments to call the function with."

/-- Modelled from the spec: is_true compiles a Boolean shape, runs the
pipeline over the merged context and returns the boolean; the stored
context is returned unchanged. -/
def is_true (ai : FlatAI) (question : String) (locals : Ctx)
    (tr : Draft → TransportReply) : (Except EngineError Bool × Nat) × FlatAI :=
  ((Except.bind (runPipeline .boolean ai.context locals question tr ai.maxAttempts).1 asBool,
    (runPipeline .boolean ai.context locals question tr ai.maxAttempts).2), ai)

/-- Modelled from the spec: classify compiles a ClosedChoice shape from
the option mapping, runs the pipeline and returns the chosen key. -/
def classify (ai : FlatAI) (options : List (String × String)) (locals : Ctx)
    (tr : Draft → TransportReply) : (Except EngineError String × Nat) × FlatAI :=
  ((Except.bind (runPipeline (.closedChoice options) ai.context locals classifyInstr tr ai.maxAttempts).1 asChoice,
    (runPipeline (.closedChoice options) ai.context locals classifyInstr tr ai.maxAttempts).2), ai)

/-- Modelled from the spec: generate_object runs the pipeline against the
supplied Target Shape (single record, list of records, or any other). -/
def generate_object (ai : FlatAI) (shape : Shape) (locals : Ctx)
    (tr : Draft → TransportReply) : (Except EngineError Decoded × Nat) × FlatAI :=
  (runPipeline shape ai.context locals genObjectInstr tr ai.maxAttempts, ai)

/-- Modelled from the spec: get_string runs the pipeline with the FreeText
shape and returns the plain text answer. -/
def get_string (ai : FlatAI) (question : String) (locals : Ctx)
    (tr : Draft → TransportReply) : (Except EngineError String × Nat) × FlatAI :=
  ((Except.bind (runPipeline .freeText ai.context locals question tr ai.maxAttempts).1 asText,
    (runPipeline .freeText ai.context locals question tr ai.maxAttempts).2), ai)

/-- Modelled from the spec: a host callable, its introspected signature
paired with its implementation. -/
structure Callable where
  sig : FuncSig
  impl : List (String × Json) → Json

/-- Modelled from the spec: call_function introspects the callable into a
FunctionSignature shape, runs the pipeline, then invokes the callable with
the decoded argument mapping. -/
def call_function (ai : FlatAI) (c : Callable) (locals : Ctx)
    (tr : Draft → TransportReply) : (Except EngineError Json × Nat) × FlatAI :=
  ((Except.bind (runPipeline (.functionSig c.sig) ai.context locals callFunctionInstr tr ai.maxAttempts).1
      (fun d => Except.map c.impl (asFuncArgs d)),
    (runPipeline (.functionSig c.sig) ai.context locals callFunctionInstr tr ai.maxAttempts).2), ai)

/-- Compiled descriptions of all candidate signatures, one after another. -/
def compileSigs : List Callable → Except String String
  | [] => .ok ""
  | c :: rest =>
    match compile (.functionSig c.sig) with
    | .error e => .error e
    | .ok d =>
      match compileSigs rest with
      | .error e => .error e
      | .ok ds => .ok (d ++ "\n" ++ ds)

/-- Modelled from the spec: the combined description for picking one of
several candidate functions by name together with its arguments. -/
def compilePick (cands : List Callable) : Except String String :=
  match compileSigs cands with
  | .error e => .error e
  | .ok ds =>
    .ok ("Choose exactly one of the following functions and respond with a JSON object with fields name and arguments.\n" ++ ds)

/-- Modelled from the spec: decoding of the combined function-choice
record. A structurally valid output whose reported name matches no
candidate by case-sensitive exact match decodes to none (resolution then
fails terminally); a matching name has its arguments validated against
that candidate signature. -/
def decodePick (cands : List Callable) (out : ModelOutput) :
    Except String (Option (Callable × List (String × Json))) :=
  match out.parsed with
  | some (.obj o) =>
    match jLookup o "name" with
    | some (.str nm) =>
      match cands.find? (fun cd => cd.sig.name == nm) with
      | none => .ok none
      | some c =>
        match jLookup o "arguments" with
        | some (.obj argsObj) =>
          match decodeParamsAux argsObj c.sig.params with
          | .error e => .error e
          | .ok kvs => .ok (some (c, kvs))
        | _ => .error "missing arguments object"
    | _ => .error "missing function name"
  | _ => .error "expected a single JSON object"

/-- Modelled from the spec: pick_a_function compiles the combined choice
description, runs the decode/retry loop, resolves the reported name to a
candidate by exact match (an unmatched name is a terminal generation
failure) and returns the Function Binding without invoking it. -/
def pick_a_function (ai : FlatAI) (instr : String) (cands : List Callable) (locals : Ctx)
    (tr : Draft → TransportReply) :
    (Except EngineError (Callable × List (String × Json)) × Nat) × FlatAI :=
  match compilePick cands with
  | .error m => ((.error (.schemaError m), 0), ai)
  | .ok desc =>
    ((Except.bind (runAttempts (decodePick cands) tr ai.maxAttempts (composeDraft ai.context locals instr desc)).1
        (fun ob =>
          match ob with
          | none => .error .generationFailed
          | some b => .ok b),
      (runAttempts (decodePick cands) tr ai.maxAttempts (composeDraft ai.context locals instr desc)).2), ai)

/-- Modelled from the spec: the Schema Compiler as invoked during a call;
it reads only the Target Shape and passes the client state through
untouched (pure function, no external state). -/
def compile_called (ai : FlatAI) (shape : Shape) : Except String String × FlatAI :=
  (compile shape, ai)

/-- Example client with an empty store and three configured attempts. -/
def aiEx : FlatAI :=
  ⟨[], 3⟩

/-- Example transport whose model answers true. -/
def trTrueEx : Draft → TransportReply :=
  fun _ => .reply ⟨"true", some (.bool true)⟩

/-- Example transport whose output never parses as structured data. -/
def trBadEx : Draft → TransportReply :=
  fun _ => .reply ⟨"nonsense", none⟩

/-- Example transport that fails at the transport level. -/
def failTrEx : Draft → TransportReply :=
  fun _ => .failure "connection refused"

/-- Example option mapping of the classification tutorial step. -/
def optsEx : List (String × String) :=
  [("meeting", "this is a meeting request"),
   ("spam", "people trying to sell you stuff you dont want"),
   ("other", "this sounds like something else")]

/-- Example transport whose model answers the key meeting. -/
def trMeetingEx : Draft → TransportReply :=
  fun _ => .reply ⟨"meeting", some (.str "meeting")⟩

/-- Example record shape of the tutorial email summary. -/
def recordShapeEx : Shape :=
  .record [⟨"summary", .string, none⟩, ⟨"label", .string, none⟩]

/-- Example model output filling the email summary record. -/
def recordOutEx : ModelOutput :=
  ⟨"ok", some (.obj [("label", .str "l"), ("summary", .str "s")])⟩

/-- Example transport whose model fills the email summary record. -/
def trGoodEx : Draft → TransportReply :=
  fun _ => .reply recordOutEx

/-- Signature of the tutorial function send_calendar_invite. -/
def sendCalendarInviteSig : FuncSig :=
  ⟨"send_calendar_invite",
   [⟨"subject", .string, true⟩, ⟨"meeting_date", .string, true⟩,
    ⟨"location", .string, true⟩, ⟨"attendees", .listOf .string, true⟩],
   some "send a calendar invite"⟩

/-- Signature of the tutorial function send_email. -/
def sendEmailSig : FuncSig :=
  ⟨"send_email",
   [⟨"name", .string, true⟩, ⟨"email_address_list", .listOf .string, true⟩,
    ⟨"subject", .string, true⟩, ⟨"body", .string, true⟩],
   some "send an email"⟩

/-- Example callable for send_calendar_invite. -/
def sendCalendarInviteC : Callable :=
  ⟨sendCalendarInviteSig, fun _ => Json.null⟩

/-- Example callable for send_email. -/
def sendEmailC : Callable :=
  ⟨sendEmailSig, fun _ => Json.null⟩

/-- Example candidate list of the function-picking tutorial step. -/
def candsEx : List Callable :=
  [sendCalendarInviteC, sendEmailC]

/-- Example decoded arguments for send_email. -/
def argsEx : List (String × Json) :=
  [("name", .str "Jane"), ("email_address_list", .arr [.str "john@doe.com"]),
   ("subject", .str "Urgent"), ("body", .str "Hello")]

/-- Example model output choosing send_email with its arguments. -/
def pickReplyEx : ModelOutput :=
  ⟨"chosen", some (.obj [("name", .str "send_email"), ("arguments", .obj argsEx)])⟩

/-- Example transport whose model chooses send_email. -/
def pickTrEx : Draft → TransportReply :=
  fun _ => .reply pickReplyEx

/-- Example model output reporting a function name outside the candidates. -/
def pickBadReplyEx : ModelOutput :=
  ⟨"chosen", some (.obj [("name", .str "send_sms")])⟩

/-- Example transport whose model reports an unknown function name. -/
def pickBadTrEx : Draft → TransportReply :=
  fun _ => .reply pickBadReplyEx

/-- A name absent from a name list differs from every member. -/
theorem nameIn_false_ne {l : List String} {a b : String}
    (h : nameIn a l = false) (hb : b ∈ l) : ¬ a = b := by
  induction l with
  | nil => cases hb
  | cons x xs ih =>
    rw [nameIn] at h
    by_cases hx : x = a
    · rw [if_pos hx] at h; cases h
    · rw [if_neg hx] at h
      rcases List.mem_cons.mp hb with rfl | hb2
      · intro hab; exact hx hab.symm
      · exact ih h hb2

/-- Membership in a name list is preserved by consing a new head. -/
theorem nameIn_cons_of (a x : String) (xs : List String)
    (h : nameIn a xs = true) : nameIn a (x :: xs) = true := by
  rw [nameIn]
  split
  · rfl
  · exact h

/-- A name is a member of any name list it heads. -/
theorem nameIn_head (a : String) (xs : List String) : nameIn a (a :: xs) = true := by
  simp [nameIn]

/-- Looking up an absent key under a distinct head skips the head. -/
theorem jLookup_cons_ne (k : String) (v : Json) (kvs : List (String × Json))
    (a : String) (h : ¬ k = a) : jLookup ((k, v) :: kvs) a = jLookup kvs a := by
  simp [jLookup, h]

/-- Lookup distributes over appended association lists. -/
theorem jLookup_append (l1 l2 : Ctx) (k : String) :
    jLookup (l1 ++ l2) k = orElseOpt (jLookup l1 k) (jLookup l2 k) := by
  induction l1 with
  | nil => rfl
  | cons kv rest ih =>
    obtain ⟨k2, v⟩ := kv
    by_cases h : k2 = k
    · simp [jLookup, h, orElseOpt]
    · simp [jLookup, h, orElseOpt, ih]

/-- A key bound to no name of a list is absent from decoded pairs whose
keys all come from that list. -/
theorem jLookup_none_of_nameIn_false :
    ∀ (kvs : List (String × Json)) (names : List String) (a : String),
    (∀ kv ∈ kvs, nameIn kv.1 names = true) → nameIn a names = false →
    jLookup kvs a = none := by
  intro kvs names a
  induction kvs with
  | nil => intro _ _; rfl
  | cons kv rest ih =>
    obtain ⟨k2, v⟩ := kv
    intro hall ha
    by_cases hk : k2 = a
    · subst hk
      have := hall (k2, v) (List.mem_cons_self _ _)
      rw [this] at ha
      cases ha
    · rw [jLookup_cons_ne k2 v rest a hk]
      exact ih (fun kv hkv => hall kv (List.mem_cons_of_mem _ hkv)) ha

/-- Element-wise coercion success yields element-wise type validity. -/
theorem coerceAll_sound (f : Json → Option Json) (p : Json → Bool)
    (hf : ∀ x w, f x = some w → p w = true) :
    ∀ (xs ws : List Json), coerceAll f xs = some ws → ws.all p = true := by
  intro xs
  induction xs with
  | nil =>
    intro ws h
    simp [coerceAll] at h
    subst h
    rfl
  | cons x rest ih =>
    intro ws h
    cases hx : f x with
    | none => simp [coerceAll, hx] at h
    | some w =>
      cases hrest : coerceAll f rest with
      | none => simp [coerceAll, hx, hrest] at h
      | some ws2 =>
        have hws : ws = w :: ws2 := by
          simp [coerceAll, hx, hrest] at h
          exact h.symm
        subst hws
        simp [List.all_cons, hf x w hx, ih ws2 hrest]

/-- Successful best-effort coercion produces a value of the declared type. -/
theorem coerce_hasType : ∀ (t : FieldType) (v w : Json),
    coerceTo t v = some w → valueHasType t w = true := by
  intro t
  induction t with
  | string =>
    intro v w h
    cases v <;> simp [coerceTo] at h <;> subst h <;> rfl
  | integer =>
    intro v w h
    cases v <;> simp [coerceTo] at h
    · obtain ⟨n, _, hn⟩ := h
      subst hn
      rfl
    · subst h
      rfl
  | boolean =>
    intro v w h
    cases v with
    | str s =>
      rw [coerceTo] at h
      by_cases h1 : s = "true"
      · rw [if_pos h1] at h
        cases h
        rfl
      · rw [if_neg h1] at h
        by_cases h2 : s = "false"
        · rw [if_pos h2] at h
          cases h
          rfl
        · rw [if_neg h2] at h
          cases h
    | bool b => simp [coerceTo] at h; subst h; rfl
    | null => cases h
    | num n => cases h
    | arr xs => cases h
    | obj o => cases h
  | date =>
    intro v w h
    cases v <;> simp [coerceTo] at h
    subst h
    rfl
  | listOf t ih =>
    intro v w h
    cases v with
    | arr xs =>
      rw [coerceTo] at h
      cases hc : coerceAll (coerceTo t) xs with
      | none => rw [hc] at h; cases h
      | some ws =>
        rw [hc] at h
        cases h
        have := coerceAll_sound (coerceTo t) (valueHasType t) (fun x w2 h2 => ih x w2 h2) xs ws hc
        simpa [valueHasType] using this
    | null => cases h
    | str s => cases h
    | num n => cases h
    | bool b => cases h
    | obj o => cases h
  | unsupported tag =>
    intro v w h
    cases h

/-- Field-wise record decoding binds every declared field, under unique
field names, to a value of its declared type. -/
theorem decodeFieldsAux_sound :
    ∀ (fs : List Field) (o kvs : List (String × Json)),
    hasDupNames (fs.map Field.name) = false →
    decodeFieldsAux o fs = .ok kvs →
    ∀ f ∈ fs, ∃ w, jLookup kvs f.name = some w ∧ valueHasType f.type w = true := by
  intro fs
  induction fs with
  | nil =>
    intro o kvs _ _ f hf
    cases hf
  | cons g rest ih =>
    intro o kvs hdup hdec f hf
    have hdup2 : nameIn g.name (rest.map Field.name) = false ∧
        hasDupNames (rest.map Field.name) = false := by
      simpa [hasDupNames] using hdup
    cases hlook : jLookup o g.name with
    | none => simp [decodeFieldsAux, hlook] at hdec
    | some v =>
      cases hco : coerceTo g.type v with
      | none => simp [decodeFieldsAux, hlook, hco] at hdec
      | some w =>
        cases hrest : decodeFieldsAux o rest with
        | error e => simp [decodeFieldsAux, hlook, hco, hrest] at hdec
        | ok kvs2 =>
          have hkvs : kvs = (g.name, w) :: kvs2 := by
            have h2 := hdec
            simp [decodeFieldsAux, hlook, hco, hrest] at h2
            exact h2.symm
          subst hkvs
          rcases List.mem_cons.mp hf with rfl | hf2
          · refine ⟨w, ?_, coerce_hasType _ _ _ hco⟩
            simp [jLookup]
          · obtain ⟨w2, hl2, ht2⟩ := ih o kvs2 hdup2.2 hrest f hf2
            refine ⟨w2, ?_, ht2⟩
            have hne : ¬ g.name = f.name :=
              nameIn_false_ne hdup2.1 (List.mem_map_of_mem Field.name hf2)
            rw [jLookup_cons_ne _ _ _ _ hne]
            exact hl2

/-- Field-wise soundness packaged as the record validity predicate. -/
theorem recordSatisfies_of (fs : List Field) (kvs : List (String × Json))
    (h : ∀ f ∈ fs, ∃ w, jLookup kvs f.name = some w ∧ valueHasType f.type w = true) :
    recordSatisfies fs kvs = true := by
  rw [recordSatisfies, List.all_eq_true]
  intro f hf
  obtain ⟨w, hl, ht⟩ := h f hf
  simp [fieldSatisfied, hl, ht]

/-- Every decoded list item individually satisfies the record fields. -/
theorem decodeRecordItems_sound :
    ∀ (fs : List Field) (xs : List Json) (items : List (List (String × Json))),
    hasDupNames (fs.map Field.name) = false →
    decodeRecordItems fs xs = .ok items →
    items.all (recordSatisfies fs) = true := by
  intro fs xs
  induction xs with
  | nil =>
    intro items _ h
    simp [decodeRecordItems] at h
    subst h
    rfl
  | cons j rest ih =>
    intro items hdup h
    cases j with
    | obj o =>
      cases hfa : decodeFieldsAux o fs with
      | error e => simp [decodeRecordItems, hfa] at h
      | ok kvs =>
        cases hrest : decodeRecordItems fs rest with
        | error e => simp [decodeRecordItems, hfa, hrest] at h
        | ok items2 =>
          have hit : items = kvs :: items2 := by
            have h2 := h
            simp [decodeRecordItems, hfa, hrest] at h2
            exact h2.symm
          subst hit
          have h1 : recordSatisfies fs kvs = true :=
            recordSatisfies_of fs kvs (decodeFieldsAux_sound fs o kvs hdup hfa)
          simp [List.all_cons, h1, ih items2 hdup hrest]
    | null => simp [decodeRecordItems] at h
    | str s => simp [decodeRecordItems] at h
    | num n => simp [decodeRecordItems] at h
    | bool b => simp [decodeRecordItems] at h
    | arr a => simp [decodeRecordItems] at h

/-- Every decoded argument key is a declared parameter name. -/
theorem decodeParamsAux_keys :
    ∀ (ps : List Param) (o kvs : List (String × Json)),
    decodeParamsAux o ps = .ok kvs → argsDeclared ps kvs = true := by
  intro ps
  induction ps with
  | nil =>
    intro o kvs h
    simp [decodeParamsAux] at h
    subst h
    rfl
  | cons p rest ih =>
    intro o kvs h
    cases hlook : jLookup o p.name with
    | none =>
      simp only [decodeParamsAux, hlook] at h
      cases hreq : p.required with
      | true => rw [hreq] at h; simp at h
      | false =>
        rw [hreq] at h
        simp at h
        have h2 := ih o kvs h
        rw [argsDeclared, List.all_eq_true] at h2 ⊢
        intro kv hkv
        simp only [List.map_cons]
        exact nameIn_cons_of _ _ _ (h2 kv hkv)
    | some v =>
      cases hco : coerceTo p.type v with
      | none => simp [decodeParamsAux, hlook, hco] at h
      | some w =>
        cases hrest : decodeParamsAux o rest with
        | error e => simp [decodeParamsAux, hlook, hco, hrest] at h
        | ok kvs2 =>
          have hkvs : kvs = (p.name, w) :: kvs2 := by
            have h2 := h
            simp [decodeParamsAux, hlook, hco, hrest] at h2
            exact h2.symm
          subst hkvs
          have h2 := ih o kvs2 hrest
          rw [argsDeclared, List.all_eq_true] at h2 ⊢
          intro kv hkv
          simp only [List.map_cons]
          rcases List.mem_cons.mp hkv with rfl | hkv2
          · exact nameIn_head _ _
          · exact nameIn_cons_of _ _ _ (h2 kv hkv2)

/-- Under unique parameter names, every declared parameter is correctly
bound by the decoded arguments. -/
theorem decodeParamsAux_paramSatisfied :
    ∀ (ps : List Param) (o kvs : List (String × Json)),
    hasDupNames (ps.map Param.name) = false →
    decodeParamsAux o ps = .ok kvs →
    ∀ p ∈ ps, paramSatisfied kvs p = true := by
  intro ps
  induction ps with
  | nil =>
    intro o kvs _ _ p hp
    cases hp
  | cons p rest ih =>
    intro o kvs hdup h q hq
    have hdup2 : nameIn p.name (rest.map Param.name) = false ∧
        hasDupNames (rest.map Param.name) = false := by
      simpa [hasDupNames] using hdup
    cases hlook : jLookup o p.name with
    | none =>
      simp only [decodeParamsAux, hlook] at h
      cases hreq : p.required with
      | true => rw [hreq] at h; simp at h
      | false =>
        rw [hreq] at h
        simp at h
        rcases List.mem_cons.mp hq with rfl | hq2
        · have hnone : jLookup kvs q.name = none := by
            have hk := decodeParamsAux_keys rest o kvs h
            rw [argsDeclared, List.all_eq_true] at hk
            exact jLookup_none_of_nameIn_false kvs (rest.map Param.name) q.name hk hdup2.1
          simp [paramSatisfied, hnone, hreq]
        · exact ih o kvs hdup2.2 h q hq2
    | some v =>
      cases hco : coerceTo p.type v with
      | none => simp [decodeParamsAux, hlook, hco] at h
      | some w =>
        cases hrest : decodeParamsAux o rest with
        | error e => simp [decodeParamsAux, hlook, hco, hrest] at h
        | ok kvs2 =>
          have hkvs : kvs = (p.name, w) :: kvs2 := by
            have h2 := h
            simp [decodeParamsAux, hlook, hco, hrest] at h2
            exact h2.symm
          subst hkvs
          rcases List.mem_cons.mp hq with rfl | hq2
          · simp [paramSatisfied, jLookup, coerce_hasType _ _ _ hco]
          · have hne : ¬ p.name = q.name :=
              nameIn_false_ne hdup2.1 (List.mem_map_of_mem Param.name hq2)
            have h3 := ih o kvs2 hdup2.2 hrest q hq2
            simp only [paramSatisfied, jLookup_cons_ne _ _ _ _ hne]
            simpa [paramSatisfied] using h3

/-- Every required declared parameter is bound by the decoded arguments
to a value of its declared type. -/
theorem decodeParamsAux_required :
    ∀ (ps : List Param) (o kvs : List (String × Json)),
    decodeParamsAux o ps = .ok kvs →
    ∀ p ∈ ps, p.required = true →
    ∃ v, (p.name, v) ∈ kvs ∧ valueHasType p.type v = true := by
  intro ps
  induction ps with
  | nil =>
    intro o kvs _ p hp
    cases hp
  | cons p rest ih =>
    intro o kvs h q hq hqreq
    cases hlook : jLookup o p.name with
    | none =>
      simp only [decodeParamsAux, hlook] at h
      cases hreq : p.required with
      | true => rw [hreq] at h; simp at h
      | false =>
        rw [hreq] at h
        simp at h
        rcases List.mem_cons.mp hq with rfl | hq2
        · rw [hqreq] at hreq; cases hreq
        · exact ih o kvs h q hq2 hqreq
    | some v =>
      cases hco : coerceTo p.type v with
      | none => simp [decodeParamsAux, hlook, hco] at h
      | some w =>
        cases hrest : decodeParamsAux o rest with
        | error e => simp [decodeParamsAux, hlook, hco, hrest] at h
        | ok kvs2 =>
          have hkvs : kvs = (p.name, w) :: kvs2 := by
            have h2 := h
            simp [decodeParamsAux, hlook, hco, hrest] at h2
            exact h2.symm
          subst hkvs
          rcases List.mem_cons.mp hq with rfl | hq2
          · exact ⟨w, List.mem_cons_self _ _, coerce_hasType _ _ _ hco⟩
          · obtain ⟨v2, hv2, ht2⟩ := ih o kvs2 hrest q hq2 hqreq
            exact ⟨v2, List.mem_cons_of_mem _ hv2, ht2⟩

/-- A valid decode against the Boolean shape yields a boolean result. -/
theorem decode_boolean_ok (out : ModelOutput) (d : Decoded)
    (h : decode .boolean out = .ok d) : ∃ b, d = .bool b := by
  cases hp : out.parsed with
  | none => simp [decode, hp] at h
  | some j =>
    cases hc : coerceTo .boolean j with
    | none => simp [decode, hp, hc] at h
    | some w =>
      cases w with
      | bool b =>
        refine ⟨b, ?_⟩
        simp [decode, hp, hc] at h
        exact h.symm
      | null => simp [decode, hp, hc] at h
      | str s => simp [decode, hp, hc] at h
      | num n => simp [decode, hp, hc] at h
      | arr xs => simp [decode, hp, hc] at h
      | obj o => simp [decode, hp, hc] at h

/-- A valid decode against a ClosedChoice shape yields a key that is a
member of the allowed set. -/
theorem decode_choice_ok (opts : List (String × String)) (out : ModelOutput) (d : Decoded)
    (h : decode (.closedChoice opts) out = .ok d) :
    ∃ k, d = .choice k ∧ nameIn k (opts.map Prod.fst) = true := by
  cases hp : out.parsed with
  | none => simp [decode, hp] at h
  | some j =>
    cases j with
    | str k =>
      cases hin : nameIn k (opts.map Prod.fst) with
      | true =>
        refine ⟨k, ?_, hin⟩
        simp [decode, hp, hin] at h
        exact h.symm
      | false => simp [decode, hp, hin] at h
    | null => simp [decode, hp] at h
    | num n => simp [decode, hp] at h
    | bool b => simp [decode, hp] at h
    | arr xs => simp [decode, hp] at h
    | obj o => simp [decode, hp] at h

/-- A valid decode against the FreeText shape yields the raw text. -/
theorem decode_freeText_ok (out : ModelOutput) (d : Decoded)
    (h : decode .freeText out = .ok d) : ∃ s, d = .text s := by
  refine ⟨out.raw, ?_⟩
  simp [decode] at h
  exact h.symm

/-- A valid decode against a FunctionSignature shape yields an argument
mapping. -/
theorem decode_funcSig_ok (sig : FuncSig) (out : ModelOutput) (d : Decoded)
    (h : decode (.functionSig sig) out = .ok d) : ∃ kvs, d = .funcArgs kvs := by
  cases hp : out.parsed with
  | none => simp [decode, hp] at h
  | some j =>
    cases j with
    | obj o =>
      cases hpa : decodeParamsAux o sig.params with
      | error e => simp [decode, hp, hpa] at h
      | ok kvs =>
        refine ⟨kvs, ?_⟩
        simp [decode, hp, hpa] at h
        exact h.symm
    | null => simp [decode, hp] at h
    | str s => simp [decode, hp] at h
    | num n => simp [decode, hp] at h
    | bool b => simp [decode, hp] at h
    | arr xs => simp [decode, hp] at h

/-- The retry loop never surfaces a validation error. -/
theorem runAttempts_taxonomy {α : Type} (dec : ModelOutput → Except String α)
    (tr : Draft → TransportReply) :
    ∀ (n : Nat) (d : Draft) (e : EngineError),
    (runAttempts dec tr n d).1 = .error e → publicError e = true := by
  intro n
  induction n with
  | zero =>
    intro d e h
    simp [runAttempts] at h
    rw [← h]
    rfl
  | succ n ih =>
    intro d e h
    cases htr : tr d with
    | failure m =>
      simp [runAttempts, htr] at h
      rw [← h]
      rfl
    | reply out =>
      cases hdec : dec out with
      | ok a => simp [runAttempts, htr, hdec] at h
      | error msg =>
        simp only [runAttempts, htr, hdec] at h
        exact ih _ e h

/-- A successful retry loop result comes from a successful decode of some
transport output. -/
theorem runAttempts_ok {α : Type} (dec : ModelOutput → Except String α)
    (tr : Draft → TransportReply) :
    ∀ (n : Nat) (d : Draft) (a : α),
    (runAttempts dec tr n d).1 = .ok a → ∃ out, dec out = .ok a := by
  intro n
  induction n with
  | zero =>
    intro d a h
    simp [runAttempts] at h
  | succ n ih =>
    intro d a h
    cases htr : tr d with
    | failure m => simp [runAttempts, htr] at h
    | reply out =>
      cases hdec : dec out with
      | ok b =>
        simp [runAttempts, htr, hdec] at h
        exact ⟨out, by rw [hdec, h]⟩
      | error msg =>
        simp only [runAttempts, htr, hdec] at h
        exact ih _ a h

/-- The retry loop never performs more transport calls than the budget. -/
theorem runAttempts_count_le {α : Type} (dec : ModelOutput → Except String α)
    (tr : Draft → TransportReply) :
    ∀ (n : Nat) (d : Draft), (runAttempts dec tr n d).2 ≤ n := by
  intro n
  induction n with
  | zero =>
    intro d
    simp [runAttempts]
  | succ n ih =>
    intro d
    cases htr : tr d with
    | failure m =>
      simp only [runAttempts, htr]
      omega
    | reply out =>
      cases hdec : dec out with
      | ok a =>
        simp only [runAttempts, htr, hdec]
        omega
      | error msg =>
        simp only [runAttempts, htr, hdec]
        have := ih (appendFeedback d out.raw msg)
        omega

/-- If every transport reply fails to decode, the retry loop spends its
whole budget and ends in a terminal generation failure. -/
theorem runAttempts_exhausts {α : Type} (dec : ModelOutput → Except String α)
    (tr : Draft → TransportReply)
    (h : ∀ d : Draft, ∃ out msg, tr d = .reply out ∧ dec out = .error msg) :
    ∀ (n : Nat) (d : Draft), runAttempts dec tr n d = (.error .generationFailed, n) := by
  intro n
  induction n with
  | zero => intro d; rfl
  | succ n ih =>
    intro d
    obtain ⟨out, msg, htr, hdec⟩ := h d
    simp [runAttempts, htr, hdec, ih]

/-- A reply that decodes validly ends the loop after one transport call. -/
theorem runAttempts_first_valid {α : Type} (dec : ModelOutput → Except String α)
    (tr : Draft → TransportReply) (n : Nat) (d : Draft) (out : ModelOutput) (a : α)
    (hn : 1 ≤ n) (htr : tr d = .reply out) (hdec : dec out = .ok a) :
    runAttempts dec tr n d = (.ok a, 1) := by
  cases n with
  | zero => omega
  | succ n => simp [runAttempts, htr, hdec]

/-- A transport failure propagates from the loop after exactly one call. -/
theorem runAttempts_transport_immediate {α : Type} (dec : ModelOutput → Except String α)
    (tr : Draft → TransportReply) (n : Nat) (d : Draft) (m : String)
    (hn : 1 ≤ n) (htr : tr d = .failure m) :
    runAttempts dec tr n d = (.error (.transportError m), 1) := by
  cases n with
  | zero => omega
  | succ n => simp [runAttempts, htr]

/-- The pipeline only surfaces errors of the public taxonomy. -/
theorem runPipeline_taxonomy (shape : Shape) (store locals : Ctx) (instr : String)
    (tr : Draft → TransportReply) (n : Nat) (e : EngineError)
    (h : (runPipeline shape store locals instr tr n).1 = .error e) :
    publicError e = true := by
  cases hc : compile shape with
  | error m =>
    simp [runPipeline, hc] at h
    rw [← h]
    rfl
  | ok desc =>
    simp only [runPipeline, hc] at h
    exact runAttempts_taxonomy _ _ _ _ _ h

/-- A successful pipeline result comes from a successful decode against
the Target Shape. -/
theorem runPipeline_ok (shape : Shape) (store locals : Ctx) (instr : String)
    (tr : Draft → TransportReply) (n : Nat) (d : Decoded)
    (h : (runPipeline shape store locals instr tr n).1 = .ok d) :
    ∃ out, decode shape out = .ok d := by
  cases hc : compile shape with
  | error m => simp [runPipeline, hc] at h
  | ok desc =>
    simp only [runPipeline, hc] at h
    exact runAttempts_ok _ _ _ _ _ h

/-- An is_true error is always of the public taxonomy. -/
theorem is_true_error_public (ai : FlatAI) (q : String) (locals : Ctx)
    (tr : Draft → TransportReply) (e : EngineError)
    (h : (is_true ai q locals tr).1.1 = .error e) : publicError e = true := by
  have h2 : Except.bind (runPipeline .boolean ai.context locals q tr ai.maxAttempts).1 asBool
      = .error e := h
  cases hr : (runPipeline .boolean ai.context locals q tr ai.maxAttempts).1 with
  | error e2 =>
    rw [hr] at h2
    simp [Except.bind] at h2
    rw [← h2]
    exact runPipeline_taxonomy _ _ _ _ _ _ _ hr
  | ok d =>
    rw [hr] at h2
    obtain ⟨out, hout⟩ := runPipeline_ok _ _ _ _ _ _ _ hr
    obtain ⟨b, rfl⟩ := decode_boolean_ok out d hout
    simp [Except.bind, asBool] at h2

/-- A classify error is always of the public taxonomy. -/
theorem classify_error_public (ai : FlatAI) (options : List (String × String)) (locals : Ctx)
    (tr : Draft → TransportReply) (e : EngineError)
    (h : (classify ai options locals tr).1.1 = .error e) : publicError e = true := by
  have h2 : Except.bind
      (runPipeline (.closedChoice options) ai.context locals classifyInstr tr ai.maxAttempts).1
      asChoice = .error e := h
  cases hr : (runPipeline (.closedChoice options) ai.context locals classifyInstr tr ai.maxAttempts).1 with
  | error e2 =>
    rw [hr] at h2
    simp [Except.bind] at h2
    rw [← h2]
    exact runPipeline_taxonomy _ _ _ _ _ _ _ hr
  | ok d =>
    rw [hr] at h2
    obtain ⟨out, hout⟩ := runPipeline_ok _ _ _ _ _ _ _ hr
    obtain ⟨k, rfl, hin⟩ := decode_choice_ok options out d hout
    simp [Except.bind, asChoice] at h2

/-- A get_string error is always of the public taxonomy. -/
theorem get_string_error_public (ai : FlatAI) (q : String) (locals : Ctx)
    (tr : Draft → TransportReply) (e : EngineError)
    (h : (get_string ai q locals tr).1.1 = .error e) : publicError e = true := by
  have h2 : Except.bind (runPipeline .freeText ai.context locals q tr ai.maxAttempts).1 asText
      = .error e := h
  cases hr : (runPipeline .freeText ai.context locals q tr ai.maxAttempts).1 with
  | error e2 =>
    rw [hr] at h2
    simp [Except.bind] at h2
    rw [← h2]
    exact runPipeline_taxonomy _ _ _ _ _ _ _ hr
  | ok d =>
    rw [hr] at h2
    obtain ⟨out, hout⟩ := runPipeline_ok _ _ _ _ _ _ _ hr
    obtain ⟨s, rfl⟩ := decode_freeText_ok out d hout
    simp [Except.bind, asText] at h2

/-- A call_function error is always of the public taxonomy. -/
theorem call_function_error_public (ai : FlatAI) (c : Callable) (locals : Ctx)
    (tr : Draft → TransportReply) (e : EngineError)
    (h : (call_function ai c locals tr).1.1 = .error e) : publicError e = true := by
  have h2 : Except.bind
      (runPipeline (.functionSig c.sig) ai.context locals callFunctionInstr tr ai.maxAttempts).1
      (fun d => Except.map c.impl (asFuncArgs d)) = .error e := h
  cases hr : (runPipeline (.functionSig c.sig) ai.context locals callFunctionInstr tr ai.maxAttempts).1 with
  | error e2 =>
    rw [hr] at h2
    simp [Except.bind] at h2
    rw [← h2]
    exact runPipeline_taxonomy _ _ _ _ _ _ _ hr
  | ok d =>
    rw [hr] at h2
    obtain ⟨out, hout⟩ := runPipeline_ok _ _ _ _ _ _ _ hr
    obtain ⟨kvs, rfl⟩ := decode_funcSig_ok c.sig out d hout
    simp [Except.bind, asFuncArgs, Except.map] at h2

/-- A pick_a_function error is always of the public taxonomy. -/
theorem pick_error_public (ai : FlatAI) (instr : String) (cands : List Callable) (locals : Ctx)
    (tr : Draft → TransportReply) (e : EngineError)
    (h : (pick_a_function ai instr cands locals tr).1.1 = .error e) : publicError e = true := by
  cases hc : compilePick cands with
  | error m =>
    simp only [pick_a_function, hc] at h
    simp at h
    rw [← h]
    rfl
  | ok desc =>
    simp only [pick_a_function, hc] at h
    cases hr : (runAttempts (decodePick cands) tr ai.maxAttempts
        (composeDraft ai.context locals instr desc)).1 with
    | error e2 =>
      rw [hr] at h
      simp [Except.bind] at h
      rw [← h]
      exact runAttempts_taxonomy _ _ _ _ _ hr
    | ok ob =>
      rw [hr] at h
      cases ob with
      | none =>
        simp [Except.bind] at h
        rw [← h]
        rfl
      | some b => simp [Except.bind] at h

/-- A successful pick_a_function result comes from a successful combined
decode resolving to that binding. -/
theorem pick_ok_decodePick (ai : FlatAI) (instr : String) (cands : List Callable) (locals : Ctx)
    (tr : Draft → TransportReply) (c : Callable) (args : List (String × Json))
    (h : (pick_a_function ai instr cands locals tr).1.1 = .ok (c, args)) :
    ∃ out, decodePick cands out = .ok (some (c, args)) := by
  cases hc : compilePick cands with
  | error m =>
    simp only [pick_a_function, hc] at h
    simp at h
  | ok desc =>
    simp only [pick_a_function, hc] at h
    cases hr : (runAttempts (decodePick cands) tr ai.maxAttempts
        (composeDraft ai.context locals instr desc)).1 with
    | error e2 =>
      rw [hr] at h
      simp [Except.bind] at h
    | ok ob =>
      rw [hr] at h
      cases ob with
      | none => simp [Except.bind] at h
      | some b =>
        have hb : b = (c, args) := by simpa [Except.bind] using h
        subst hb
        exact runAttempts_ok _ _ _ _ _ hr

/-- Anatomy of a successful combined function-choice decode: the callable
was found among the candidates by exact name match and its arguments were
decoded against its own signature. -/
theorem decodePick_ok_some (cands : List Callable) (out : ModelOutput) (c : Callable)
    (args : List (String × Json))
    (h : decodePick cands out = .ok (some (c, args))) :
    c ∈ cands ∧
    (∃ o nm, out.parsed = some (.obj o) ∧ jLookup o "name" = some (.str nm) ∧
      c.sig.name = nm ∧
      ∃ argsObj, jLookup o "arguments" = some (.obj argsObj) ∧
        decodeParamsAux argsObj c.sig.params = .ok args) := by
  cases hp : out.parsed with
  | none => simp [decodePick, hp] at h
  | some j =>
    cases j with
    | obj o =>
      cases hname : jLookup o "name" with
      | none => simp [decodePick, hp, hname] at h
      | some jn =>
        cases jn with
        | str nm =>
          cases hfind : cands.find? (fun cd => cd.sig.name == nm) with
          | none => simp [decodePick, hp, hname, hfind] at h
          | some c2 =>
            cases hargs : jLookup o "arguments" with
            | none => simp [decodePick, hp, hname, hfind, hargs] at h
            | some ja =>
              cases ja with
              | obj argsObj =>
                cases hpa : decodeParamsAux argsObj c2.sig.params with
                | error e => simp [decodePick, hp, hname, hfind, hargs, hpa] at h
                | ok kvs =>
                  have h2 : c2 = c ∧ kvs = args := by
                    have h3 := h
                    simp [decodePick, hp, hname, hfind, hargs, hpa] at h3
                    exact h3
                  obtain ⟨rfl, rfl⟩ := h2
                  refine ⟨List.mem_of_find?_eq_some hfind, o, nm, rfl, hname, ?_,
                    argsObj, hargs, hpa⟩
                  have hbeq := List.find?_some hfind
                  exact eq_of_beq hbeq
              | null => simp [decodePick, hp, hname, hfind, hargs] at h
              | str s => simp [decodePick, hp, hname, hfind, hargs] at h
              | num n => simp [decodePick, hp, hname, hfind, hargs] at h
              | bool b => simp [decodePick, hp, hname, hfind, hargs] at h
              | arr xs => simp [decodePick, hp, hname, hfind, hargs] at h
        | null => simp [decodePick, hp, hname] at h
        | num n => simp [decodePick, hp, hname] at h
        | bool b => simp [decodePick, hp, hname] at h
        | arr xs => simp [decodePick, hp, hname] at h
        | obj o2 => simp [decodePick, hp, hname] at h
    | null => simp [decodePick, hp] at h
    | str s => simp [decodePick, hp] at h
    | num n => simp [decodePick, hp] at h
    | bool b => simp [decodePick, hp] at h
    | arr xs => simp [decodePick, hp] at h

/-- Claim C1: for every supported Target Shape and raw model output, if the
Response Decoder/Validator returns a Decoded Result rather than an error,
the result satisfies every structural constraint of the shape: required
fields present with values of their declared types, a choice key a member
of the allowed set, and every list item individually valid (shapes obey
the data-model invariant of unique field and parameter names). -/
theorem decode_ok_satisfiesShape :
    ∀ (shape : Shape) (out : ModelOutput) (d : Decoded),
    wellFormedShape shape = true → decode shape out = .ok d →
    satisfiesShape shape d = true := by
  intro shape out d hwf h
  cases shape with
  | boolean =>
    obtain ⟨b, rfl⟩ := decode_boolean_ok out d h
    rfl
  | closedChoice opts =>
    obtain ⟨k, rfl, hin⟩ := decode_choice_ok opts out d h
    simpa [satisfiesShape] using hin
  | freeText =>
    obtain ⟨s, rfl⟩ := decode_freeText_ok out d h
    rfl
  | record fs =>
    have hdup : hasDupNames (fs.map Field.name) = false := by
      simpa [wellFormedShape] using hwf
    cases hp : out.parsed with
    | none => simp [decode, hp] at h
    | some j =>
      cases j with
      | obj o =>
        cases hfa : decodeFieldsAux o fs with
        | error e => simp [decode, hp, hfa] at h
        | ok kvs =>
          have hd : d = .record kvs := by
            have h2 := h
            simp [decode, hp, hfa] at h2
            exact h2.symm
          subst hd
          simpa [satisfiesShape] using
            recordSatisfies_of fs kvs (decodeFieldsAux_sound fs o kvs hdup hfa)
      | null => simp [decode, hp] at h
      | str s => simp [decode, hp] at h
      | num n => simp [decode, hp] at h
      | bool b => simp [decode, hp] at h
      | arr xs => simp [decode, hp] at h
  | listOfRecord fs =>
    have hdup : hasDupNames (fs.map Field.name) = false := by
      simpa [wellFormedShape] using hwf
    cases hp : out.parsed with
    | none => simp [decode, hp] at h
    | some j =>
      cases j with
      | arr xs =>
        cases hri : decodeRecordItems fs xs with
        | error e => simp [decode, hp, hri] at h
        | ok items =>
          have hd : d = .list items := by
            have h2 := h
            simp [decode, hp, hri] at h2
            exact h2.symm
          subst hd
          simpa [satisfiesShape] using decodeRecordItems_sound fs xs items hdup hri
      | null => simp [decode, hp] at h
      | str s => simp [decode, hp] at h
      | num n => simp [decode, hp] at h
      | bool b => simp [decode, hp] at h
      | obj o => simp [decode, hp] at h
  | functionSig sig =>
    have hdup : hasDupNames (sig.params.map Param.name) = false := by
      simpa [wellFormedShape] using hwf
    cases hp : out.parsed with
    | none => simp [decode, hp] at h
    | some j =>
      cases j with
      | obj o =>
        cases hpa : decodeParamsAux o sig.params with
        | error e => simp [decode, hp, hpa] at h
        | ok kvs =>
          have hd : d = .funcArgs kvs := by
            have h2 := h
            simp [decode, hp, hpa] at h2
            exact h2.symm
          subst hd
          have h1 : sig.params.all (paramSatisfied kvs) = true :=
            List.all_eq_true.mpr (decodeParamsAux_paramSatisfied sig.params o kvs hdup hpa)
          have h2 : argsDeclared sig.params kvs = true :=
            decodeParamsAux_keys sig.params o kvs hpa
          simp [satisfiesShape, h1, h2]
      | null => simp [decode, hp] at h
      | str s => simp [decode, hp] at h
      | num n => simp [decode, hp] at h
      | bool b => simp [decode, hp] at h
      | arr xs => simp [decode, hp] at h

/-- Witness for C1: the tutorial email-summary record shape, decoded from
a concrete model output, satisfies every structural constraint. -/
theorem decode_ok_satisfiesShape_witness :
    wellFormedShape recordShapeEx = true
    ∧ decode recordShapeEx recordOutEx = .ok (.record [("summary", .str "s"), ("label", .str "l")])
    ∧ satisfiesShape recordShapeEx (.record [("summary", .str "s"), ("label", .str "l")]) = true :=
  ⟨by decide, rfl,
   decode_ok_satisfiesShape recordShapeEx recordOutEx
     (.record [("summary", .str "s"), ("label", .str "l")]) (by decide) rfl⟩

/-- Claim C2: with a compilable shape and a Transport whose every reply
fails to decode, generate_object performs exactly the configured maximum
number of attempts and fails with a terminal generation failure; it never
performs more attempts than configured; it succeeds after one attempt when
the first reply decodes validly; and each failed decode re-invokes
Transport with the prior error appended to the Conversation Draft. -/
theorem generate_object_retry_bound :
    ∀ (ai : FlatAI) (shape : Shape) (locals : Ctx) (tr : Draft → TransportReply),
    ((∃ desc, compile shape = .ok desc) →
      (∀ d : Draft, ∃ out msg, tr d = .reply out ∧ decode shape out = .error msg) →
      (generate_object ai shape locals tr).1 = (.error .generationFailed, ai.maxAttempts))
    ∧ ((generate_object ai shape locals tr).1.2 ≤ ai.maxAttempts)
    ∧ (∀ (desc : String) (out : ModelOutput) (d0 : Decoded),
        compile shape = .ok desc → 1 ≤ ai.maxAttempts →
        tr (composeDraft ai.context locals genObjectInstr desc) = .reply out →
        decode shape out = .ok d0 →
        (generate_object ai shape locals tr).1 = (.ok d0, 1))
    ∧ (∀ (n : Nat) (d : Draft) (out : ModelOutput) (msg : String),
        tr d = .reply out → decode shape out = .error msg →
        runAttempts (decode shape) tr (n + 1) d =
          ((runAttempts (decode shape) tr n (appendFeedback d out.raw msg)).1,
           (runAttempts (decode shape) tr n (appendFeedback d out.raw msg)).2 + 1)) := by
  intro ai shape locals tr
  refine ⟨?_, ?_, ?_, ?_⟩
  · intro hdesc hbad
    obtain ⟨desc, hc⟩ := hdesc
    show runPipeline shape ai.context locals genObjectInstr tr ai.maxAttempts
      = (.error .generationFailed, ai.maxAttempts)
    rw [runPipeline, hc]
    exact runAttempts_exhausts (decode shape) tr hbad ai.maxAttempts _
  · show (runPipeline shape ai.context locals genObjectInstr tr ai.maxAttempts).2 ≤ ai.maxAttempts
    cases hc : compile shape with
    | error m => simp [runPipeline, hc]
    | ok desc =>
      rw [runPipeline, hc]
      exact runAttempts_count_le _ _ _ _
  · intro desc out d0 hc hn htr hdec
    show runPipeline shape ai.context locals genObjectInstr tr ai.maxAttempts = (.ok d0, 1)
    rw [runPipeline, hc]
    exact runAttempts_first_valid _ _ _ _ _ _ hn htr hdec
  · intro n d out msg htr hdec
    simp [runAttempts, htr, hdec]

/-- Witness for C2: with three configured attempts, a Transport whose
output never parses makes generate_object fail after exactly three
attempts, while a Transport whose first reply is valid succeeds after one
attempt. -/
theorem generate_object_retry_bound_witness :
    (∃ desc, compile recordShapeEx = .ok desc)
    ∧ (generate_object aiEx recordShapeEx [] trBadEx).1 = (.error .generationFailed, 3)
    ∧ (generate_object aiEx recordShapeEx [] trGoodEx).1
      = (.ok (.record [("summary", .str "s"), ("label", .str "l")]), 1) :=
  ⟨⟨_, rfl⟩,
   (generate_object_retry_bound aiEx recordShapeEx [] trBadEx).1 ⟨_, rfl⟩
     (fun _ => ⟨⟨"nonsense", none⟩, _, rfl, rfl⟩),
   (generate_object_retry_bound aiEx recordShapeEx [] trGoodEx).2.2.1 _ _ _ rfl
     (by decide) rfl rfl⟩

/-- Claim C3: classify either returns a key that is a member of the
supplied option set, or, when every reply fails to decode, fails with a
terminal generation failure; it never returns a key outside the set. -/
theorem classify_key_in_options :
    ∀ (ai : FlatAI) (options : List (String × String)) (locals : Ctx)
      (tr : Draft → TransportReply),
    (∀ k, (classify ai options locals tr).1.1 = .ok k →
      nameIn k (options.map Prod.fst) = true)
    ∧ ((∀ d : Draft, ∃ out msg, tr d = .reply out ∧
          decode (.closedChoice options) out = .error msg) →
        (classify ai options locals tr).1.1 = .error .generationFailed) := by
  intro ai options locals tr
  constructor
  · intro k h
    have h2 : Except.bind
        (runPipeline (.closedChoice options) ai.context locals classifyInstr tr ai.maxAttempts).1
        asChoice = .ok k := h
    cases hr : (runPipeline (.closedChoice options) ai.context locals classifyInstr tr ai.maxAttempts).1 with
    | error e =>
      rw [hr] at h2
      simp [Except.bind] at h2
    | ok d =>
      rw [hr] at h2
      obtain ⟨out, hout⟩ := runPipeline_ok _ _ _ _ _ _ _ hr
      obtain ⟨k2, rfl, hin⟩ := decode_choice_ok options out d hout
      have hk : k2 = k := by simpa [Except.bind, asChoice] using h2
      subst hk
      exact hin
  · intro hbad
    have h2 : runAttempts (decode (.closedChoice options)) tr ai.maxAttempts
        (composeDraft ai.context locals classifyInstr
          ("Answer with exactly one of the following keys verbatim:\n" ++ optionsText options))
        = (.error .generationFailed, ai.maxAttempts) :=
      runAttempts_exhausts _ _ hbad _ _
    show Except.bind
        (runPipeline (.closedChoice options) ai.context locals classifyInstr tr ai.maxAttempts).1
        asChoice = .error .generationFailed
    simp only [runPipeline, compile]
    rw [h2]
    rfl

/-- Witness for C3: with the tutorial option set and a Transport answering
the key meeting, classify returns meeting, a member of the set; with a
Transport whose output never parses it fails with a generation failure. -/
theorem classify_key_in_options_witness :
    (classify aiEx optsEx [] trMeetingEx).1.1 = .ok "meeting"
    ∧ nameIn "meeting" (optsEx.map Prod.fst) = true
    ∧ (classify aiEx optsEx [] trBadEx).1.1 = .error .generationFailed :=
  ⟨rfl,
   (classify_key_in_options aiEx optsEx [] trMeetingEx).1 "meeting" rfl,
   (classify_key_in_options aiEx optsEx [] trBadEx).2
     (fun _ => ⟨⟨"nonsense", none⟩, _, rfl, rfl⟩)⟩

/-- Claim C4: a public generation call uses as its effective context the
stored context merged with the call-local bindings, call-local entries
overriding same-named stored entries, and leaves the stored Context Store
unchanged; concretely, with stored context a bound to 1 and call-local
context b bound to 2, the effective context binds a to 1 and b to 2 and
the stored context still binds exactly a to 1 afterward. -/
theorem context_merge_law :
    ∀ (ai : FlatAI) (locals : Ctx) (q instr desc : String)
      (tr : Draft → TransportReply) (k : String),
    (composeDraft ai.context locals instr desc).contextBlock = mergeContext ai.context locals
    ∧ jLookup (mergeContext ai.context locals) k
      = orElseOpt (jLookup locals k) (jLookup ai.context k)
    ∧ (is_true ai q locals tr).2 = ai
    ∧ jLookup (mergeContext [("a", Json.num 1)] [("b", Json.num 2)]) "a" = some (Json.num 1)
    ∧ jLookup (mergeContext [("a", Json.num 1)] [("b", Json.num 2)]) "b" = some (Json.num 2)
    ∧ (is_true ⟨[("a", Json.num 1)], ai.maxAttempts⟩ q [("b", Json.num 2)] tr).2
      = ⟨[("a", Json.num 1)], ai.maxAttempts⟩ :=
  fun ai locals _q _instr _desc _tr k =>
    ⟨rfl, jLookup_append locals ai.context k, rfl, rfl, rfl, rfl⟩

/-- Claim C5: set_context replaces the store by exactly the given
bindings, add_context leaves the store equal to the previous store merged
with the bindings with same-named keys taking the new value, and
clear_context empties the store; all three are total operations. -/
theorem context_store_ops :
    ∀ (ai : FlatAI) (b : Ctx) (k : String),
    (set_context ai b).context = b
    ∧ jLookup ((add_context ai b).context) k
      = orElseOpt (jLookup b k) (jLookup ai.context k)
    ∧ (clear_context ai).context = [] :=
  fun ai b k => ⟨rfl, jLookup_append b ai.context k, rfl⟩

/-- Claim C6: a successful pick_a_function resolves the reported function
name to a candidate by case-sensitive exact match on the candidate name,
and a structurally valid reply whose reported name matches no candidate
exactly makes the call fail with a terminal generation failure. -/
theorem pick_a_function_exact_match :
    ∀ (ai : FlatAI) (instr : String) (cands : List Callable) (locals : Ctx)
      (tr : Draft → TransportReply),
    (∀ (c : Callable) (args : List (String × Json)),
      (pick_a_function ai instr cands locals tr).1.1 = .ok (c, args) →
      c ∈ cands ∧ ∃ (out : ModelOutput) (o : List (String × Json)) (nm : String),
        out.parsed = some (.obj o)
        ∧ jLookup o "name" = some (.str nm) ∧ c.sig.name = nm)
    ∧ (∀ (desc : String) (out : ModelOutput) (o : List (String × Json)) (nm : String),
      compilePick cands = .ok desc → 1 ≤ ai.maxAttempts →
      tr (composeDraft ai.context locals instr desc) = .reply out →
      out.parsed = some (.obj o) → jLookup o "name" = some (.str nm) →
      cands.find? (fun cd => cd.sig.name == nm) = none →
      (pick_a_function ai instr cands locals tr).1 = (.error .generationFailed, 1)) := by
  intro ai instr cands locals tr
  constructor
  · intro c args h
    obtain ⟨out, hdp⟩ := pick_ok_decodePick ai instr cands locals tr c args h
    obtain ⟨hmem, o, nm, hp, hname, hnm, _⟩ := decodePick_ok_some cands out c args hdp
    exact ⟨hmem, out, o, nm, hp, hname, hnm⟩
  · intro desc out o nm hcp hn htr hp hname hfind
    have hdp : decodePick cands out = .ok none := by
      simp [decodePick, hp, hname, hfind]
    have hra : runAttempts (decodePick cands) tr ai.maxAttempts
        (composeDraft ai.context locals instr desc) = (.ok none, 1) :=
      runAttempts_first_valid _ _ _ _ _ _ hn htr hdp
    simp only [pick_a_function, hcp]
    rw [hra]
    rfl

/-- Witness for C6: with the tutorial candidates, a reply naming
send_email resolves to the send_email callable, while a reply naming the
unknown function send_sms is a terminal generation failure after one
attempt. -/
theorem pick_a_function_exact_match_witness :
    (pick_a_function aiEx "choose" candsEx [] pickTrEx).1.1 = .ok (sendEmailC, argsEx)
    ∧ (sendEmailC ∈ candsEx
       ∧ ∃ (out : ModelOutput) (o : List (String × Json)) (nm : String),
         out.parsed = some (.obj o)
         ∧ jLookup o "name" = some (.str nm) ∧ sendEmailC.sig.name = nm)
    ∧ (pick_a_function aiEx "choose" candsEx [] pickBadTrEx).1
      = (.error .generationFailed, 1) :=
  ⟨rfl,
   (pick_a_function_exact_match aiEx "choose" candsEx [] pickTrEx).1 sendEmailC argsEx rfl,
   (pick_a_function_exact_match aiEx "choose" candsEx [] pickBadTrEx).2 _ pickBadReplyEx _
     "send_sms" rfl (by decide) rfl rfl rfl rfl⟩

/-- Claim C7: every error surfaced by a public operation belongs to the
public taxonomy of schema, transport and terminal generation-failure
errors — a validation error is always consumed internally by the Retry
Controller — and a transport-level failure propagates to the caller after
exactly one Transport call, without being retried by the engine. -/
theorem public_error_taxonomy :
    ∀ (ai : FlatAI) (q instr : String) (options : List (String × String)) (shape : Shape)
      (c : Callable) (cands : List Callable) (locals : Ctx)
      (tr : Draft → TransportReply) (e : EngineError),
    ((is_true ai q locals tr).1.1 = .error e → publicError e = true)
    ∧ ((classify ai options locals tr).1.1 = .error e → publicError e = true)
    ∧ ((generate_object ai shape locals tr).1.1 = .error e → publicError e = true)
    ∧ ((get_string ai q locals tr).1.1 = .error e → publicError e = true)
    ∧ ((call_function ai c locals tr).1.1 = .error e → publicError e = true)
    ∧ ((pick_a_function ai instr cands locals tr).1.1 = .error e → publicError e = true)
    ∧ (∀ (desc m : String), compile shape = .ok desc → 1 ≤ ai.maxAttempts →
        tr (composeDraft ai.context locals genObjectInstr desc) = .failure m →
        (generate_object ai shape locals tr).1 = (.error (.transportError m), 1)) := by
  intro ai q instr options shape c cands locals tr e
  refine ⟨is_true_error_public ai q locals tr e,
    classify_error_public ai options locals tr e, ?_,
    get_string_error_public ai q locals tr e,
    call_function_error_public ai c locals tr e,
    pick_error_public ai instr cands locals tr e, ?_⟩
  · intro h
    exact runPipeline_taxonomy _ _ _ _ _ _ _ h
  · intro desc m hc hn htr
    show runPipeline shape ai.context locals genObjectInstr tr ai.maxAttempts
      = (.error (.transportError m), 1)
    rw [runPipeline, hc]
    exact runAttempts_transport_immediate _ _ _ _ _ hn htr

/-- Witness for C7: a run that exhausts its attempts surfaces a terminal
generation failure, which is in the public taxonomy, and a transport
failure surfaces immediately after exactly one call. -/
theorem public_error_taxonomy_witness :
    (generate_object aiEx recordShapeEx [] trBadEx).1.1 = .error .generationFailed
    ∧ publicError .generationFailed = true
    ∧ (generate_object aiEx recordShapeEx [] failTrEx).1
      = (.error (.transportError "connection refused"), 1) :=
  ⟨rfl,
   (public_error_taxonomy aiEx "q" "i" optsEx recordShapeEx sendEmailC candsEx [] trBadEx
     .generationFailed).2.2.1 rfl,
   (public_error_taxonomy aiEx "q" "i" optsEx recordShapeEx sendEmailC candsEx [] failTrEx
     .generationFailed).2.2.2.2.2.2 _ "connection refused" rfl (by decide) rfl⟩

/-- Claim C8: is_true either fails with an error of the public taxonomy or
returns exactly one of the two boolean values; it never returns a textual
or partially decoded value. -/
theorem is_true_boolean_result :
    ∀ (ai : FlatAI) (q : String) (locals : Ctx) (tr : Draft → TransportReply),
    (∀ b, (is_true ai q locals tr).1.1 = .ok b → b = true ∨ b = false)
    ∧ (∀ e, (is_true ai q locals tr).1.1 = .error e → publicError e = true) := by
  intro ai q locals tr
  constructor
  · intro b _
    cases b
    · exact Or.inr rfl
    · exact Or.inl rfl
  · exact is_true_error_public ai q locals tr

/-- Witness for C8: a Transport answering true makes is_true return the
boolean true. -/
theorem is_true_boolean_result_witness :
    (is_true aiEx "is this email urgent?" [] trTrueEx).1.1 = .ok true
    ∧ (true = true ∨ true = false) :=
  ⟨rfl, (is_true_boolean_result aiEx "is this email urgent?" [] trTrueEx).1 true rfl⟩

/-- Claim C9: the Schema Compiler is a pure function of the Target Shape:
as invoked during a call it neither reads nor changes the client state (in
particular the Context Store does not affect the Compiled Description),
and compiling the same shape twice yields identical descriptions. -/
theorem compile_pure_state :
    ∀ (ai ai2 : FlatAI) (shape : Shape),
    (compile_called ai shape).1 = (compile_called ai2 shape).1
    ∧ (compile_called ai shape).2 = ai
    ∧ (compile_called ((compile_called ai shape).2) shape).1 = (compile_called ai shape).1
    ∧ (compile_called ai shape).1 = compile shape :=
  fun _ai _ai2 _shape => ⟨rfl, rfl, rfl, rfl⟩

/-- Claim C10: a successful pick_a_function returns a binding whose
callable is an element of the supplied candidates and whose argument
mapping is well-formed for that callable: every argument key is a declared
parameter name and every required parameter is bound to a value of its
declared type. -/
theorem pick_a_function_binding_wellformed :
    ∀ (ai : FlatAI) (instr : String) (cands : List Callable) (locals : Ctx)
      (tr : Draft → TransportReply) (c : Callable) (args : List (String × Json)),
    (pick_a_function ai instr cands locals tr).1.1 = .ok (c, args) →
    c ∈ cands
    ∧ (∀ kv ∈ args, nameIn kv.1 (c.sig.params.map Param.name) = true)
    ∧ (∀ p ∈ c.sig.params, p.required = true →
        ∃ v, (p.name, v) ∈ args ∧ valueHasType p.type v = true) := by
  intro ai instr cands locals tr c args h
  obtain ⟨out, hdp⟩ := pick_ok_decodePick ai instr cands locals tr c args h
  obtain ⟨hmem, o, nm, hp, hname, hnm, argsObj, hargs, hpa⟩ :=
    decodePick_ok_some cands out c args hdp
  refine ⟨hmem, ?_, decodeParamsAux_required c.sig.params argsObj args hpa⟩
  have hk := decodeParamsAux_keys c.sig.params argsObj args hpa
  rw [argsDeclared, List.all_eq_true] at hk
  exact hk

/-- Witness for C10: the binding returned for the tutorial candidates is
the send_email callable from the list with a well-formed argument
mapping. -/
theorem pick_a_function_binding_wellformed_witness :
    (pick_a_function aiEx "choose" candsEx [] pickTrEx).1.1 = .ok (sendEmailC, argsEx)
    ∧ (sendEmailC ∈ candsEx
       ∧ (∀ kv ∈ argsEx, nameIn kv.1 (sendEmailC.sig.params.map Param.name) = true)
       ∧ (∀ p ∈ sendEmailC.sig.params, p.required = true →
           ∃ v, (p.name, v) ∈ argsEx ∧ valueHasType p.type v = true)) :=
  ⟨rfl,
   pick_a_function_binding_wellformed aiEx "choose" candsEx [] pickTrEx sendEmailC argsEx rfl⟩

end FlatSpec
